import Mathlib

/-!
Verification of the Zync scene-detection module
(`src/ai_modules/scene_detection.py`).

The Python code is shallowly embedded as follows:

* the `SceneDetector` class becomes a structure carrying the configuration
  stored by `__init__` (no validation is performed there, exactly as in the
  source);
* frames are an abstract type `α` together with a dissimilarity scorer
  `score : α → α → ℚ`; for the histogram scorer itself (`C6`) frames are
  concrete pixel grids;
* `cv2.VideoCapture` becomes a `VideoCapture` record with an `opened` flag,
  an `fps` rational and the list of frames that `cap.read()` will yield.
  The frame-count metadata (`CAP_PROP_FRAME_COUNT`) is the length of that
  list, i.e. the source is assumed to report consistent metadata;
* the `while True: cap.read()` loop of `detect_scenes` is a left fold of a
  per-frame step function over the frame list, with the loop state
  (`scene_changes`, `prev_frame`, `frame_count`, emitted progress values)
  made explicit;
* Python exceptions become `Except` values.  In particular, Python raises
  `ZeroDivisionError` at `duration = total_frames / fps` when `fps = 0`;
  since division by zero is total on `ℚ`, this is modelled by an explicit
  check producing `DetectError.zeroDivisionError`;
* real-number timestamps and scores use `ℚ` (the scan only compares,
  subtracts and divides, so exact rational arithmetic models the intent;
  floating-point rounding is out of scope).
-/

set_option maxHeartbeats 1000000

namespace SceneDetection

/-- Configuration stored by `SceneDetector.__init__`.  The source stores
`threshold` and `min_scene_length` unchecked. -/
structure SceneDetector where
  threshold : ℚ
  min_scene_length : ℚ
deriving DecidableEq

/-- The loop state of `SceneDetector.detect_scenes`: the accumulated
`scene_changes` list (initialised to `[0]`), the previous frame,
the frame counter, and the progress percentages emitted so far. -/
structure ScanState (α : Type) where
  scene_changes : List ℚ
  prev_frame : Option α
  frame_count : ℕ
  progress : List ℚ

/-- One iteration of the `while True` loop body of `detect_scenes`
(lines 72–95 of the source): score against the previous frame when there is
one, append `frame_count / fps` to `scene_changes` when
`difference > threshold` and (`len(scene_changes) == 1` or
`timestamp - scene_changes[-1] >= min_scene_length`), then advance
`prev_frame`/`frame_count` and possibly emit a progress percentage. -/
def processFrame {α : Type} (D : SceneDetector) (score : α → α → ℚ) (fps : ℚ)
    (total_frames : ℕ) (hasCallback : Bool) (s : ScanState α) (frame : α) :
    ScanState α :=
  let scene_changes :=
    match s.prev_frame with
    | none => s.scene_changes
    | some prev =>
      let difference := score prev frame
      if D.threshold < difference then
        let timestamp : ℚ := (s.frame_count : ℚ) / fps
        if s.scene_changes.length = 1 ∨
            D.min_scene_length ≤ timestamp - s.scene_changes.getLastD 0 then
          s.scene_changes ++ [timestamp]
        else
          s.scene_changes
      else
        s.scene_changes
  let frame_count := s.frame_count + 1
  let progress :=
    if hasCallback = true ∧ frame_count % 30 = 0 then
      s.progress ++ [(frame_count : ℚ) / (total_frames : ℚ) * 100]
    else
      s.progress
  ⟨scene_changes, some frame, frame_count, progress⟩

/-- The state right before the loop: `scene_changes = [0]`, no previous
frame, `frame_count = 0`, no progress emitted. -/
def initState (α : Type) : ScanState α := ⟨[0], none, 0, []⟩

/-- The whole frame-scan loop of `detect_scenes`. -/
def runScan {α : Type} (D : SceneDetector) (score : α → α → ℚ) (fps : ℚ)
    (total_frames : ℕ) (hasCallback : Bool) (frames : List α) : ScanState α :=
  frames.foldl (processFrame D score fps total_frames hasCallback) (initState α)

/-- The full boundary list produced by `detect_scenes`: the scanned
`scene_changes` followed by the synthetic final boundary
`duration = total_frames / fps` (line 98 of the source). -/
def sceneChangesOf {α : Type} (D : SceneDetector) (score : α → α → ℚ) (fps : ℚ)
    (hasCallback : Bool) (frames : List α) : List ℚ :=
  (runScan D score fps frames.length hasCallback frames).scene_changes
    ++ [(frames.length : ℚ) / fps]

/-- The pairing `[(scene_changes[i], scene_changes[i+1]) for i in range(len - 1)]`
(lines 101–102 of the source). -/
def scenePairs (boundaries : List ℚ) : List (ℚ × ℚ) :=
  boundaries.zip boundaries.tail

/-- A `cv2.VideoCapture`: whether it opened, its FPS metadata and the frames
`cap.read()` yields; the frame-count metadata is the length of `frames`. -/
structure VideoCapture (α : Type) where
  opened : Bool
  fps : ℚ
  frames : List α

/-- Exceptions `detect_scenes` can raise: the explicit
`Exception("Error: Could not open video ...")` of line 57, and Python's
`ZeroDivisionError` from `duration = total_frames / fps` at line 62 when the
source reports `fps = 0`. -/
inductive DetectError where
  | couldNotOpen
  | zeroDivisionError
deriving DecidableEq

/-- Embedding of `SceneDetector.detect_scenes`: open check, the (unchecked) division
`total_frames / fps`, the frame scan, the synthetic final boundary and the
pairing into intervals.  Returns the interval list together with the emitted
progress percentages. -/
def detect_scenes {α : Type} (D : SceneDetector) (score : α → α → ℚ)
    (cap : VideoCapture α) (hasCallback : Bool) :
    Except DetectError (List (ℚ × ℚ) × List ℚ) :=
  if cap.opened = false then .error .couldNotOpen
  else if cap.fps = 0 then .error .zeroDivisionError
  else
    .ok (scenePairs (sceneChangesOf D score cap.fps hasCallback cap.frames),
      (runScan D score cap.fps cap.frames.length hasCallback cap.frames).progress)

/-- The scan state after the first `k` frames have been processed. -/
def scanPrefix {α : Type} (D : SceneDetector) (score : α → α → ℚ) (fps : ℚ)
    (hasCallback : Bool) (frames : List α) (k : ℕ) : ScanState α :=
  runScan D score fps frames.length hasCallback (frames.take k)

/-- A concrete dissimilarity scorer on rational "frames", used to
instantiate theorems on executable inputs. -/
def qDiff (a b : ℚ) : ℚ := (b - a) * (b - a)

section ScanLemmas

variable {α : Type} (D : SceneDetector) (score : α → α → ℚ) (fps : ℚ)
  (total_frames : ℕ) (hasCallback : Bool)

theorem processFrame_frame_count (s : ScanState α) (a : α) :
    (processFrame D score fps total_frames hasCallback s a).frame_count =
      s.frame_count + 1 := rfl

theorem processFrame_prev_frame (s : ScanState α) (a : α) :
    (processFrame D score fps total_frames hasCallback s a).prev_frame =
      some a := rfl

theorem processFrame_scene_changes_none {s : ScanState α} (a : α)
    (h : s.prev_frame = none) :
    (processFrame D score fps total_frames hasCallback s a).scene_changes =
      s.scene_changes := by
  simp only [processFrame, h]

theorem processFrame_scene_changes_some {s : ScanState α} {p : α} (a : α)
    (h : s.prev_frame = some p) :
    (processFrame D score fps total_frames hasCallback s a).scene_changes =
      (if D.threshold < score p a then
        if s.scene_changes.length = 1 ∨
            D.min_scene_length ≤
              (s.frame_count : ℚ) / fps - s.scene_changes.getLastD 0 then
          s.scene_changes ++ [(s.frame_count : ℚ) / fps]
        else s.scene_changes
      else s.scene_changes) := by
  simp only [processFrame, h]

/-- Fold a one-step invariant over a whole `foldl`. -/
theorem foldl_invariant {β γ : Type} {f : γ → β → γ} {P : γ → Prop}
    (hstep : ∀ c b, P c → P (f c b)) :
    ∀ (l : List β) (c : γ), P c → P (l.foldl f c)
  | [], _, hc => hc
  | b :: l, c, hc => foldl_invariant hstep l (f c b) (hstep c b hc)

/-- Fold a one-step binary simulation over two parallel `foldl`s. -/
theorem foldl_rel {β γ δ : Type} {f : γ → β → γ} {g : δ → β → δ}
    {R : γ → δ → Prop} (hstep : ∀ c d b, R c d → R (f c b) (g d b)) :
    ∀ (l : List β) (c : γ) (d : δ), R c d → R (l.foldl f c) (l.foldl g d)
  | [], _, _, h => h
  | b :: l, c, d, h => foldl_rel hstep l (f c b) (g d b) (hstep c d b h)

theorem foldl_frame_count :
    ∀ (l : List α) (s : ScanState α),
      (l.foldl (processFrame D score fps total_frames hasCallback) s).frame_count =
        s.frame_count + l.length
  | [], s => by simp
  | a :: l, s => by
    rw [List.foldl_cons,
      foldl_frame_count l (processFrame D score fps total_frames hasCallback s a),
      processFrame_frame_count]
    simp only [List.length_cons]
    omega

theorem runScan_frame_count (frames : List α) :
    (runScan D score fps total_frames hasCallback frames).frame_count =
      frames.length := by
  rw [runScan, foldl_frame_count]
  simp [initState]

theorem scanPrefix_frame_count (frames : List α) (k : ℕ) (hk : k ≤ frames.length) :
    (scanPrefix D score fps hasCallback frames k).frame_count = k := by
  rw [scanPrefix, runScan_frame_count, List.length_take]
  omega

theorem scanPrefix_succ (frames : List α) (k : ℕ) (hk : k < frames.length) :
    scanPrefix D score fps hasCallback frames (k + 1) =
      processFrame D score fps frames.length hasCallback
        (scanPrefix D score fps hasCallback frames k) (frames.get ⟨k, hk⟩) := by
  unfold scanPrefix runScan
  rw [List.take_succ, List.getElem?_eq_getElem hk]
  simp only [Option.toList_some, List.foldl_append, List.foldl_cons, List.foldl_nil,
    List.get_eq_getElem]

theorem scanPrefix_prev_frame (frames : List α) (k : ℕ) (hk : k < frames.length) :
    (scanPrefix D score fps hasCallback frames (k + 1)).prev_frame =
      some (frames.get ⟨k, hk⟩) := by
  rw [scanPrefix_succ D score fps hasCallback frames k hk, processFrame_prev_frame]

end ScanLemmas

/-- C1.  Boundary acceptance rule: for every frame at 0-based index
`i ≥ 1`, with dissimilarity score `d` against its predecessor and candidate
timestamp `t = i / fps`, the scan state after frame `i` appends `t` to the
boundary list if and only if `d > threshold` (strict) and (the boundary list
still contains only the initial `0` entry, or
`t - lastBoundaryTime ≥ minSceneLength`, non-strict); otherwise the list is
unchanged, and the step for frame `0` (which has no predecessor) leaves the
list at its initial value `[0]`.  No step of the scan removes boundaries or
adds them by any other rule. -/
theorem boundary_acceptance_rule {α : Type} (D : SceneDetector)
    (score : α → α → ℚ) (fps : ℚ) (hasCallback : Bool) (frames : List α)
    (i : ℕ) (hi : i < frames.length) :
    (1 ≤ i →
      (scanPrefix D score fps hasCallback frames (i + 1)).scene_changes =
        (let S := (scanPrefix D score fps hasCallback frames i).scene_changes
         let d := score (frames.get ⟨i - 1, Nat.lt_of_le_of_lt (Nat.sub_le i 1) hi⟩)
           (frames.get ⟨i, hi⟩)
         let t : ℚ := (i : ℚ) / fps
         if D.threshold < d ∧
             (S.length = 1 ∨ D.min_scene_length ≤ t - S.getLastD 0) then
           S ++ [t]
         else S))
    ∧ (i = 0 →
      (scanPrefix D score fps hasCallback frames (i + 1)).scene_changes = [0]) := by
  constructor
  · intro h1
    obtain ⟨j, rfl⟩ : ∃ j, i = j + 1 := ⟨i - 1, by omega⟩
    have hj : j < frames.length := by omega
    have hprev :
        (scanPrefix D score fps hasCallback frames (j + 1)).prev_frame =
          some (frames.get ⟨j, hj⟩) :=
      scanPrefix_prev_frame D score fps hasCallback frames j hj
    have hcount :
        (scanPrefix D score fps hasCallback frames (j + 1)).frame_count = j + 1 :=
      scanPrefix_frame_count D score fps hasCallback frames (j + 1) (by omega)
    rw [scanPrefix_succ D score fps hasCallback frames (j + 1) hi,
      processFrame_scene_changes_some D score fps frames.length hasCallback
        (frames.get ⟨j + 1, hi⟩) hprev, hcount]
    have hget : frames.get ⟨j + 1 - 1, Nat.lt_of_le_of_lt (Nat.sub_le (j + 1) 1) hi⟩ =
        frames.get ⟨j, hj⟩ := by congr 1
    simp only [hget]
    push_cast
    split_ifs <;> tauto
  · rintro rfl
    rw [scanPrefix_succ D score fps hasCallback frames 0 hi,
      processFrame_scene_changes_none D score fps frames.length hasCallback
        (frames.get ⟨0, hi⟩) (by rfl)]
    rfl

/-- Witness for C1: on the two-frame rational video `[0, 100]` at 1 fps with
threshold 30, the score of frame 1 against frame 0 is `10000 > 30` and the
boundary list still only holds the initial `0`, so the step for frame 1
appends the timestamp `1`. -/
theorem boundary_acceptance_rule_witness :
    (scanPrefix ⟨30, 2⟩ qDiff 1 false [0, 100] 2).scene_changes = [0, 1] := by
  have h := (boundary_acceptance_rule ⟨30, 2⟩ qDiff 1 false [0, 100] 1
    (by decide)).1 (by decide)
  rw [h]
  norm_num [scanPrefix, runScan, initState, processFrame, qDiff]

section PartitionInvariant

variable {α : Type}

/-- Invariant of the scan loop: `scene_changes` is nonempty, starts with the
initial boundary `0`, is strictly increasing, every entry other than `0` is
positive and satisfies `x * fps < frame_count`, and a previous frame exists
only after at least one frame has been read. -/
def ScanInv (fps : ℚ) (s : ScanState α) : Prop :=
  s.scene_changes ≠ [] ∧
  s.scene_changes.head? = some 0 ∧
  List.Chain' (· < ·) s.scene_changes ∧
  (∀ x ∈ s.scene_changes, x = 0 ∨ (0 < x ∧ x * fps < (s.frame_count : ℚ))) ∧
  (s.prev_frame.isSome = true → 1 ≤ s.frame_count)

theorem chain'_concat_of_lt (l : List ℚ) (t : ℚ) (hl : List.Chain' (· < ·) l)
    (hlast : ∀ x ∈ l.getLast?, x < t) : List.Chain' (· < ·) (l ++ [t]) := by
  rw [List.chain'_append]
  refine ⟨hl, List.chain'_singleton t, fun x hx y hy => ?_⟩
  simp only [List.head?_cons, Option.mem_def, Option.some.injEq] at hy
  subst hy
  exact hlast x hx

theorem scanInv_step (D : SceneDetector) (score : α → α → ℚ) (fps : ℚ)
    (total_frames : ℕ) (hasCallback : Bool) (hfps : 0 < fps)
    (s : ScanState α) (a : α) (h : ScanInv fps s) :
    ScanInv fps (processFrame D score fps total_frames hasCallback s a) := by
  obtain ⟨hne, hhead, hchain, hmem, hprev⟩ := h
  have hmono : ∀ x ∈ s.scene_changes,
      x = 0 ∨ (0 < x ∧ x * fps < ((s.frame_count + 1 : ℕ) : ℚ)) := by
    intro x hx
    refine (hmem x hx).imp id fun hx2 => ⟨hx2.1, ?_⟩
    have := hx2.2
    push_cast
    push_cast at this
    linarith
  have hsome : (processFrame D score fps total_frames hasCallback s a).prev_frame.isSome = true →
      1 ≤ (processFrame D score fps total_frames hasCallback s a).frame_count := by
    rw [processFrame_frame_count]
    omega
  cases hp : s.prev_frame with
  | none =>
    have hsc := processFrame_scene_changes_none D score fps total_frames hasCallback a hp
    refine ⟨by rw [hsc]; exact hne, by rw [hsc]; exact hhead, by rw [hsc]; exact hchain,
      ?_, hsome⟩
    rw [hsc, processFrame_frame_count]
    exact hmono
  | some p =>
    have hsc := processFrame_scene_changes_some D score fps total_frames hasCallback a hp
    have hone : 1 ≤ s.frame_count := hprev (by rw [hp]; rfl)
    set t : ℚ := (s.frame_count : ℚ) / fps with ht
    have htpos : 0 < t := div_pos (by exact_mod_cast hone) hfps
    have htmul : t * fps = (s.frame_count : ℚ) :=
      div_mul_cancel₀ _ (ne_of_gt hfps)
    by_cases hd : D.threshold < score p a
    case neg =>
      rw [if_neg hd] at hsc
      refine ⟨by rw [hsc]; exact hne, by rw [hsc]; exact hhead, by rw [hsc]; exact hchain,
        ?_, hsome⟩
      rw [hsc, processFrame_frame_count]
      exact hmono
    case pos =>
      rw [if_pos hd] at hsc
      by_cases hg : s.scene_changes.length = 1 ∨
          D.min_scene_length ≤ t - s.scene_changes.getLastD 0
      case neg =>
        rw [if_neg hg] at hsc
        refine ⟨by rw [hsc]; exact hne, by rw [hsc]; exact hhead, by rw [hsc]; exact hchain,
          ?_, hsome⟩
        rw [hsc, processFrame_frame_count]
        exact hmono
      case pos =>
        rw [if_pos hg] at hsc
        have hlast : ∀ x ∈ s.scene_changes.getLast?, x < t := by
          intro x hx
          rcases hmem x (List.mem_of_mem_getLast? hx) with rfl | ⟨hx0, hxlt⟩
          · exact htpos
          · have hxt : x * fps < t * fps := by rw [htmul]; exact hxlt
            exact (mul_lt_mul_right hfps).mp hxt
        refine ⟨?_, ?_, ?_, ?_, hsome⟩
        · rw [hsc]; simp
        · rw [hsc, List.head?_append, hhead]; rfl
        · rw [hsc]; exact chain'_concat_of_lt _ _ hchain hlast
        · rw [hsc, processFrame_frame_count]
          intro x hx
          rcases List.mem_append.mp hx with hx1 | hx2
          · exact hmono x hx1
          · right
            simp only [List.mem_singleton] at hx2
            subst hx2
            refine ⟨htpos, ?_⟩
            rw [htmul]
            push_cast
            linarith

theorem scanInv_runScan (D : SceneDetector) (score : α → α → ℚ) (fps : ℚ)
    (total_frames : ℕ) (hasCallback : Bool) (hfps : 0 < fps) (frames : List α) :
    ScanInv fps (runScan D score fps total_frames hasCallback frames) := by
  refine foldl_invariant
    (fun s a h => scanInv_step D score fps total_frames hasCallback hfps s a h)
    frames (initState α) ?_
  refine ⟨by simp [initState], rfl, List.chain'_singleton 0, ?_, by simp [initState]⟩
  intro x hx
  simp only [initState, List.mem_singleton] at hx
  exact Or.inl hx

theorem getD_zero_eq_head? (l : List ℚ) (d : ℚ) : l.getD 0 d = l.head?.getD d := by
  cases l <;> rfl

theorem getLastD_eq_getD (l : List ℚ) (hl : l ≠ []) (d : ℚ) :
    l.getLastD d = l.getD (l.length - 1) d := by
  rcases List.eq_nil_or_concat l with rfl | ⟨L, b, rfl⟩
  · exact absurd rfl hl
  · rw [List.concat_eq_append, List.getLastD_concat]
    have hlen : (L ++ [b]).length - 1 = L.length := by simp
    rw [hlen, List.getD_append_right _ _ _ _ (le_refl _)]
    simp

theorem chain'_lt_getD {l : List ℚ} (h : List.Chain' (· < ·) l) (j : ℕ)
    (hj : j + 1 < l.length) : l.getD j 0 < l.getD (j + 1) 0 := by
  rw [List.getD_eq_getElem _ _ (by omega : j < l.length), List.getD_eq_getElem _ _ hj]
  have := List.chain'_iff_get.mp h j (by omega)
  simpa using this

theorem scenePairs_length (bs : List ℚ) (hbs : bs ≠ []) :
    (scenePairs bs).length = bs.length - 1 := by
  rw [scenePairs, List.length_zip, List.length_tail]
  have : 0 < bs.length := List.length_pos.mpr hbs
  omega

theorem scenePairs_getD (bs : List ℚ) (j : ℕ) (hj : j + 1 < bs.length) :
    (scenePairs bs).getD j (0, 0) = (bs.getD j 0, bs.getD (j + 1) 0) := by
  have hne : bs ≠ [] := by
    intro h
    rw [h] at hj
    simp at hj
  show (bs.zip bs.tail).getD j (0, 0) = (bs.getD j 0, bs.getD (j + 1) 0)
  have hlen : j < (bs.zip bs.tail).length := by
    rw [List.length_zip, List.length_tail]
    omega
  rw [List.getD_eq_getElem _ _ hlen, List.getD_eq_getElem _ _ (by omega : j < bs.length),
    List.getD_eq_getElem _ _ hj]
  rw [List.getElem_zip, List.getElem_tail]

/-- The full boundary list of a successful `detect_scenes` run: at least two
entries, strictly increasing, starting at `0` and ending at the duration
`total_frames / fps`. -/
theorem sceneChanges_props (D : SceneDetector) (score : α → α → ℚ) (fps : ℚ)
    (hasCallback : Bool) (frames : List α) (hfps : 0 < fps)
    (hn : 0 < frames.length) :
    2 ≤ (sceneChangesOf D score fps hasCallback frames).length ∧
    (sceneChangesOf D score fps hasCallback frames).getD 0 0 = 0 ∧
    List.Chain' (· < ·) (sceneChangesOf D score fps hasCallback frames) ∧
    (sceneChangesOf D score fps hasCallback frames).getLastD 0 =
      (frames.length : ℚ) / fps := by
  obtain ⟨hne, hhead, hchain, hmem, -⟩ :=
    scanInv_runScan D score fps frames.length hasCallback hfps frames
  have hcount := runScan_frame_count D score fps frames.length hasCallback frames
  rw [hcount] at hmem
  refine ⟨?_, ?_, ?_, List.getLastD_concat _ _ _⟩
  · rw [sceneChangesOf, List.length_append]
    have : 0 < (runScan D score fps frames.length hasCallback frames).scene_changes.length :=
      List.length_pos.mpr hne
    simp only [List.length_singleton]
    omega
  · rw [sceneChangesOf, getD_zero_eq_head?, List.head?_append, hhead]
    rfl
  · rw [sceneChangesOf]
    refine chain'_concat_of_lt _ _ hchain ?_
    intro x hx
    rcases hmem x (List.mem_of_mem_getLast? hx) with rfl | ⟨hx0, hxlt⟩
    · exact div_pos (by exact_mod_cast hn) hfps
    · have : x * fps / fps < (frames.length : ℚ) / fps :=
        (div_lt_div_iff_of_pos_right hfps).mpr hxlt
      rwa [mul_div_cancel_right₀ _ (ne_of_gt hfps)] at this

/-- C2.  Partition invariant: for every opened video with `fps > 0` and a
positive number of frames, `detect_scenes` succeeds and returns an interval
list of length ≥ 1 in which every interval satisfies `start < end`,
consecutive intervals are contiguous (`interval[j].end = interval[j+1].start`),
the first interval starts at `0` and the last interval ends at
`totalFrameCount / fps` — a gapless, overlap-free cover of `[0, duration]`. -/
theorem partition_invariant (D : SceneDetector) (score : α → α → ℚ)
    (cap : VideoCapture α) (hasCallback : Bool) (hopen : cap.opened = true)
    (hfps : 0 < cap.fps) (hn : 0 < cap.frames.length) :
    ∃ intervals progressValues,
      detect_scenes D score cap hasCallback = .ok (intervals, progressValues) ∧
      1 ≤ intervals.length ∧
      (∀ j, j < intervals.length →
        (intervals.getD j (0, 0)).1 < (intervals.getD j (0, 0)).2) ∧
      (∀ j, j + 1 < intervals.length →
        (intervals.getD j (0, 0)).2 = (intervals.getD (j + 1) (0, 0)).1) ∧
      (intervals.getD 0 (0, 0)).1 = 0 ∧
      (intervals.getD (intervals.length - 1) (0, 0)).2 =
        (cap.frames.length : ℚ) / cap.fps := by
  obtain ⟨h2, h0, hch, hlast⟩ :=
    sceneChanges_props D score cap.fps hasCallback cap.frames hfps hn
  set bs := sceneChangesOf D score cap.fps hasCallback cap.frames with hbs
  have hbsne : bs ≠ [] := by
    intro h
    rw [h] at h2
    simp at h2
  have hplen : (scenePairs bs).length = bs.length - 1 := scenePairs_length bs hbsne
  refine ⟨scenePairs bs,
    (runScan D score cap.fps cap.frames.length hasCallback cap.frames).progress,
    ?_, ?_, ?_, ?_, ?_, ?_⟩
  · rw [detect_scenes, if_neg (by rw [hopen]; simp), if_neg (ne_of_gt hfps)]
  · omega
  · intro j hj
    rw [scenePairs_getD bs j (by omega)]
    exact chain'_lt_getD hch j (by omega)
  · intro j hj
    rw [scenePairs_getD bs j (by omega), scenePairs_getD bs (j + 1) (by omega)]
  · rw [scenePairs_getD bs 0 (by omega)]
    exact h0
  · rw [hplen, scenePairs_getD bs (bs.length - 1 - 1) (by omega)]
    have hidx : bs.length - 1 - 1 + 1 = bs.length - 1 := by omega
    rw [hidx, ← getLastD_eq_getD bs hbsne 0]
    exact hlast

/-- Witness for C2: a two-frame static video at 1 fps is detected as the
single interval list `[(0, 2)]`, which covers `[0, 2]` exactly. -/
theorem partition_invariant_witness :
    ∃ intervals progressValues,
      detect_scenes (⟨30, 2⟩ : SceneDetector) qDiff
          (⟨true, 1, [0, 0]⟩ : VideoCapture ℚ) false = .ok (intervals, progressValues) ∧
      1 ≤ intervals.length ∧
      (∀ j, j < intervals.length →
        (intervals.getD j (0, 0)).1 < (intervals.getD j (0, 0)).2) ∧
      (∀ j, j + 1 < intervals.length →
        (intervals.getD j (0, 0)).2 = (intervals.getD (j + 1) (0, 0)).1) ∧
      (intervals.getD 0 (0, 0)).1 = 0 ∧
      (intervals.getD (intervals.length - 1) (0, 0)).2 =
        (((⟨true, 1, [0, 0]⟩ : VideoCapture ℚ).frames.length : ℚ) /
          (⟨true, 1, [0, 0]⟩ : VideoCapture ℚ).fps) :=
  partition_invariant ⟨30, 2⟩ qDiff ⟨true, 1, [0, 0]⟩ false rfl (by decide) (by decide)

end PartitionInvariant

section SpacingInvariant

variable {α : Type}

/-- All consecutive entries of `sc` at positions ≥ 1 are at least `L`
apart.  Position 0 (the initial boundary `0`) is exempt: the code lets the
first real boundary through regardless of spacing. -/
def SpacingInv (L : ℚ) (sc : List ℚ) : Prop :=
  ∀ j, 1 ≤ j → j + 1 < sc.length → L ≤ sc.getD (j + 1) 0 - sc.getD j 0

theorem spacingInv_append {L : ℚ} {sc : List ℚ} (hne : sc ≠ [])
    (hsp : SpacingInv L sc) (t : ℚ)
    (hacc : sc.length = 1 ∨ L ≤ t - sc.getLastD 0) :
    SpacingInv L (sc ++ [t]) := by
  intro j h1 hj
  rw [List.length_append, List.length_singleton] at hj
  by_cases hlt : j + 1 < sc.length
  · rw [List.getD_append _ _ _ _ hlt, List.getD_append _ _ _ _ (by omega)]
    exact hsp j h1 hlt
  · have hj1 : j + 1 = sc.length := by omega
    have hlen2 : 2 ≤ sc.length := by omega
    rcases hacc with h | h
    · omega
    · rw [List.getD_append _ _ _ _ (by omega : j < sc.length),
        List.getD_append_right _ _ _ _ (by omega : sc.length ≤ j + 1)]
      have hz : j + 1 - sc.length = 0 := by omega
      rw [hz]
      have hlast : sc.getLastD 0 = sc.getD j 0 := by
        rw [getLastD_eq_getD sc hne 0]
        congr 1
        omega
      rw [← hlast]
      exact h

theorem spacing_step (D : SceneDetector) (score : α → α → ℚ) (fps : ℚ)
    (total_frames : ℕ) (hasCallback : Bool) (s : ScanState α) (a : α)
    (h : s.scene_changes ≠ [] ∧ SpacingInv D.min_scene_length s.scene_changes) :
    (processFrame D score fps total_frames hasCallback s a).scene_changes ≠ [] ∧
      SpacingInv D.min_scene_length
        (processFrame D score fps total_frames hasCallback s a).scene_changes := by
  obtain ⟨hne, hsp⟩ := h
  cases hp : s.prev_frame with
  | none =>
    rw [processFrame_scene_changes_none D score fps total_frames hasCallback a hp]
    exact ⟨hne, hsp⟩
  | some p =>
    rw [processFrame_scene_changes_some D score fps total_frames hasCallback a hp]
    by_cases hd : D.threshold < score p a
    case neg =>
      rw [if_neg hd]
      exact ⟨hne, hsp⟩
    case pos =>
      rw [if_pos hd]
      by_cases hg : s.scene_changes.length = 1 ∨
          D.min_scene_length ≤
            (s.frame_count : ℚ) / fps - s.scene_changes.getLastD 0
      case neg =>
        rw [if_neg hg]
        exact ⟨hne, hsp⟩
      case pos =>
        rw [if_pos hg]
        exact ⟨by simp, spacingInv_append hne hsp _ hg⟩

theorem spacing_runScan (D : SceneDetector) (score : α → α → ℚ) (fps : ℚ)
    (total_frames : ℕ) (hasCallback : Bool) (frames : List α) :
    (runScan D score fps total_frames hasCallback frames).scene_changes ≠ [] ∧
      SpacingInv D.min_scene_length
        (runScan D score fps total_frames hasCallback frames).scene_changes := by
  refine foldl_invariant
    (fun s a h => spacing_step D score fps total_frames hasCallback s a h)
    frames (initState α) ⟨by simp [initState], ?_⟩
  intro j h1 hj
  simp only [initState, List.length_singleton] at hj
  omega

/-- C3.  Minimum-spacing invariant with tail exemption: in the boundary list
produced by `detect_scenes`, any two consecutive accepted boundaries after
the first accepted real boundary (positions `j` and `j + 1` with `j ≥ 1`,
excluding the final synthetic entry) are at least `minSceneLength` apart,
while the synthetic final boundary `totalFrameCount / fps` is always the
last entry of the list, appended unconditionally when the frame source is
exhausted — no merging of the tail interval is performed. -/
theorem min_spacing_with_tail_exemption (D : SceneDetector)
    (score : α → α → ℚ) (fps : ℚ) (hasCallback : Bool) (frames : List α) :
    (∀ j, 1 ≤ j → j + 2 < (sceneChangesOf D score fps hasCallback frames).length →
      D.min_scene_length ≤
        (sceneChangesOf D score fps hasCallback frames).getD (j + 1) 0 -
          (sceneChangesOf D score fps hasCallback frames).getD j 0) ∧
    (sceneChangesOf D score fps hasCallback frames).getLastD 0 =
      (frames.length : ℚ) / fps := by
  obtain ⟨hne, hsp⟩ :=
    spacing_runScan D score fps frames.length hasCallback frames
  constructor
  · intro j h1 hj
    rw [sceneChangesOf, List.length_append, List.length_singleton] at hj
    rw [sceneChangesOf, List.getD_append _ _ _ _ (by omega),
      List.getD_append _ _ _ _ (by omega)]
    exact hsp j h1 (by omega)
  · exact List.getLastD_concat _ _ _

/-- Concrete evaluation: with threshold 10 and minSceneLength 2 at 1 fps,
the score stream of `[0, 100, 100, 0, 0]` accepts boundaries at `1` (free
pass) and `3` (gap 2 ≥ 2), and the synthetic final boundary is `5`. -/
theorem sceneChangesOf_example :
    sceneChangesOf ⟨10, 2⟩ qDiff 1 false [0, 100, 100, 0, 0] = [0, 1, 3, 5] := by
  norm_num [sceneChangesOf, runScan, initState, processFrame, qDiff, List.getLastD]

/-- Witness for C3: on the run of `sceneChangesOf_example`, consecutive
accepted boundaries `1` and `3` are `2 ≥ minSceneLength` apart and the final
boundary is the duration `5 / 1`. -/
theorem min_spacing_with_tail_exemption_witness :
    (1 ≤ 1 ∧ 1 + 2 < (sceneChangesOf (⟨10, 2⟩ : SceneDetector) qDiff 1 false
        ([0, 100, 100, 0, 0] : List ℚ)).length) ∧
    (⟨10, 2⟩ : SceneDetector).min_scene_length ≤
      (sceneChangesOf ⟨10, 2⟩ qDiff 1 false ([0, 100, 100, 0, 0] : List ℚ)).getD 2 0 -
        (sceneChangesOf ⟨10, 2⟩ qDiff 1 false ([0, 100, 100, 0, 0] : List ℚ)).getD 1 0 ∧
    (sceneChangesOf ⟨10, 2⟩ qDiff 1 false ([0, 100, 100, 0, 0] : List ℚ)).getLastD 0 =
      ((([0, 100, 100, 0, 0] : List ℚ).length : ℚ) / 1) := by
  have h := min_spacing_with_tail_exemption ⟨10, 2⟩ qDiff 1 false
    ([0, 100, 100, 0, 0] : List ℚ)
  have hlen : 1 + 2 < (sceneChangesOf (⟨10, 2⟩ : SceneDetector) qDiff 1 false
      ([0, 100, 100, 0, 0] : List ℚ)).length := by
    rw [sceneChangesOf_example]
    decide
  exact ⟨⟨le_refl 1, hlen⟩, h.1 1 (le_refl 1) hlen, h.2⟩

end SpacingInvariant

section Monotonicity

variable {α : Type}

/-- The last accepted boundary is either the initial `0` or the timestamp of
an already-processed frame (`x * fps < frame_count`). -/
def LastBound (fps : ℚ) (s : ScanState α) : Prop :=
  s.scene_changes.getLastD 0 = 0 ∨
    s.scene_changes.getLastD 0 * fps < (s.frame_count : ℚ)

/-- Simulation relation between the scan under a lax configuration
(state `s1`) and a stricter one (state `s2`, with larger threshold and
minimum scene length): the strict run has strictly fewer boundaries, or the
same number with its last boundary at least as late. -/
def SimRel (fps : ℚ) (s1 s2 : ScanState α) : Prop :=
  s1.frame_count = s2.frame_count ∧
  s1.prev_frame = s2.prev_frame ∧
  (s2.scene_changes.length < s1.scene_changes.length ∨
    (s2.scene_changes.length = s1.scene_changes.length ∧
      s1.scene_changes.getLastD 0 ≤ s2.scene_changes.getLastD 0)) ∧
  LastBound fps s1 ∧ LastBound fps s2 ∧
  (s1.prev_frame.isSome = true → 1 ≤ s1.frame_count)

theorem lastBound_le (fps : ℚ) (hfps : 0 < fps) (s : ScanState α)
    (h : LastBound fps s) :
    s.scene_changes.getLastD 0 ≤ (s.frame_count : ℚ) / fps := by
  rcases h with h | h
  · rw [h]
    positivity
  · have hd := (div_lt_div_iff_of_pos_right hfps).mpr h
    rw [mul_div_cancel_right₀ _ (ne_of_gt hfps)] at hd
    exact hd.le

theorem lastBound_processFrame (D : SceneDetector) (score : α → α → ℚ)
    (fps : ℚ) (total_frames : ℕ) (hasCallback : Bool) (hfps : 0 < fps)
    (s : ScanState α) (a : α) (h : LastBound fps s) :
    LastBound fps (processFrame D score fps total_frames hasCallback s a) := by
  have hcast : ((s.frame_count + 1 : ℕ) : ℚ) = (s.frame_count : ℚ) + 1 := by
    push_cast
    ring
  unfold LastBound at h ⊢
  rw [processFrame_frame_count, hcast]
  cases hp : s.prev_frame with
  | none =>
    rw [processFrame_scene_changes_none D score fps total_frames hasCallback a hp]
    rcases h with h | h
    · exact Or.inl h
    · exact Or.inr (by linarith)
  | some p =>
    rw [processFrame_scene_changes_some D score fps total_frames hasCallback a hp]
    split_ifs with h1 h2
    · rw [List.getLastD_concat]
      right
      rw [div_mul_cancel₀ _ (ne_of_gt hfps)]
      linarith [lt_add_one ((s.frame_count : ℚ))]
    · rcases h with h | h
      · exact Or.inl h
      · exact Or.inr (by linarith)
    · rcases h with h | h
      · exact Or.inl h
      · exact Or.inr (by linarith)

theorem simRel_step (D1 D2 : SceneDetector) (score : α → α → ℚ) (fps : ℚ)
    (total_frames : ℕ) (hasCallback : Bool) (hfps : 0 < fps)
    (hθ : D1.threshold ≤ D2.threshold)
    (hL : D1.min_scene_length ≤ D2.min_scene_length)
    (s1 s2 : ScanState α) (a : α) (h : SimRel fps s1 s2) :
    SimRel fps (processFrame D1 score fps total_frames hasCallback s1 a)
      (processFrame D2 score fps total_frames hasCallback s2 a) := by
  obtain ⟨hcnt, hprev, hlen, hb1, hb2, hone⟩ := h
  refine ⟨by rw [processFrame_frame_count, processFrame_frame_count, hcnt],
    by rw [processFrame_prev_frame, processFrame_prev_frame], ?_,
    lastBound_processFrame D1 score fps total_frames hasCallback hfps s1 a hb1,
    lastBound_processFrame D2 score fps total_frames hasCallback hfps s2 a hb2,
    fun _ => by rw [processFrame_frame_count]; omega⟩
  cases hp : s1.prev_frame with
  | none =>
    have hp2 : s2.prev_frame = none := by rw [← hprev]; exact hp
    rw [processFrame_scene_changes_none D1 score fps total_frames hasCallback a hp,
      processFrame_scene_changes_none D2 score fps total_frames hasCallback a hp2]
    exact hlen
  | some p =>
    have hp2 : s2.prev_frame = some p := by rw [← hprev]; exact hp
    rw [processFrame_scene_changes_some D1 score fps total_frames hasCallback a hp,
      processFrame_scene_changes_some D2 score fps total_frames hasCallback a hp2,
      ← hcnt]
    by_cases hd2 : D2.threshold < score p a
    · have hd1 : D1.threshold < score p a := lt_of_le_of_lt hθ hd2
      rw [if_pos hd1, if_pos hd2]
      by_cases hg2 : s2.scene_changes.length = 1 ∨
          D2.min_scene_length ≤
            (s1.frame_count : ℚ) / fps - s2.scene_changes.getLastD 0
      · rw [if_pos hg2]
        rcases hlen with hlt | ⟨heq, hle⟩
        · by_cases hg1 : s1.scene_changes.length = 1 ∨
              D1.min_scene_length ≤
                (s1.frame_count : ℚ) / fps - s1.scene_changes.getLastD 0
          · rw [if_pos hg1]
            left
            simp only [List.length_append, List.length_singleton]
            omega
          · rw [if_neg hg1]
            rcases Nat.lt_or_ge (s2.scene_changes.length + 1)
              s1.scene_changes.length with hc | hc
            · left
              simpa only [List.length_append, List.length_singleton] using hc
            · right
              refine ⟨by simp only [List.length_append, List.length_singleton]; omega, ?_⟩
              rw [List.getLastD_concat]
              exact lastBound_le fps hfps s1 hb1
        · have hg1 : s1.scene_changes.length = 1 ∨
              D1.min_scene_length ≤
                (s1.frame_count : ℚ) / fps - s1.scene_changes.getLastD 0 := by
            rcases hg2 with h1 | h2
            · left
              omega
            · right
              linarith
          rw [if_pos hg1]
          right
          refine ⟨by simp only [List.length_append, List.length_singleton]; omega, ?_⟩
          rw [List.getLastD_concat, List.getLastD_concat]
      · rw [if_neg hg2]
        by_cases hg1 : s1.scene_changes.length = 1 ∨
            D1.min_scene_length ≤
              (s1.frame_count : ℚ) / fps - s1.scene_changes.getLastD 0
        · rw [if_pos hg1]
          left
          simp only [List.length_append, List.length_singleton]
          rcases hlen with hlt | ⟨heq, -⟩ <;> omega
        · rw [if_neg hg1]
          exact hlen
    · rw [if_neg hd2]
      by_cases hd1 : D1.threshold < score p a
      · rw [if_pos hd1]
        by_cases hg1 : s1.scene_changes.length = 1 ∨
            D1.min_scene_length ≤
              (s1.frame_count : ℚ) / fps - s1.scene_changes.getLastD 0
        · rw [if_pos hg1]
          left
          simp only [List.length_append, List.length_singleton]
          rcases hlen with hlt | ⟨heq, -⟩ <;> omega
        · rw [if_neg hg1]
          exact hlen
      · rw [if_neg hd1]
        exact hlen

theorem simRel_runScan (D1 D2 : SceneDetector) (score : α → α → ℚ) (fps : ℚ)
    (total_frames : ℕ) (hasCallback : Bool) (hfps : 0 < fps)
    (hθ : D1.threshold ≤ D2.threshold)
    (hL : D1.min_scene_length ≤ D2.min_scene_length) (frames : List α) :
    SimRel fps (runScan D1 score fps total_frames hasCallback frames)
      (runScan D2 score fps total_frames hasCallback frames) := by
  refine foldl_rel
    (fun s1 s2 a h =>
      simRel_step D1 D2 score fps total_frames hasCallback hfps hθ hL s1 s2 a h)
    frames (initState α) (initState α) ?_
  exact ⟨rfl, rfl, Or.inr ⟨rfl, le_refl _⟩, Or.inl rfl, Or.inl rfl,
    by simp [initState]⟩

/-- C4.  Monotonicity in configuration: for a fixed frame stream, fps and
callback setting, raising the threshold and/or the minimum scene length
never increases the number of boundaries produced by `detect_scenes` (the
two monotonicity statements of the claim are the two specialisations
`L1 = L2` and `θ1 = θ2`). -/
theorem monotonicity_in_configuration (score : α → α → ℚ) (fps : ℚ)
    (hasCallback : Bool) (frames : List α) (t1 t2 L1 L2 : ℚ)
    (hfps : 0 < fps) (ht : t1 ≤ t2) (hL : L1 ≤ L2) :
    (sceneChangesOf ⟨t2, L2⟩ score fps hasCallback frames).length ≤
      (sceneChangesOf ⟨t1, L1⟩ score fps hasCallback frames).length := by
  obtain ⟨-, -, hlen, -, -, -⟩ :=
    simRel_runScan ⟨t1, L1⟩ ⟨t2, L2⟩ score fps frames.length hasCallback hfps
      ht hL frames
  rw [sceneChangesOf, sceneChangesOf, List.length_append, List.length_append]
  rcases hlen with h | ⟨h, -⟩
  · omega
  · omega

/-- Witness for C4: on the video `[0, 100]` at 1 fps, threshold 20000
detects no boundary (list `[0, 2]`) while threshold 10 detects one
(list `[0, 1, 2]`), so the stricter configuration yields no more
boundaries. -/
theorem monotonicity_in_configuration_witness :
    (sceneChangesOf (⟨20000, 2⟩ : SceneDetector) qDiff 1 false
        ([0, 100] : List ℚ)).length ≤
      (sceneChangesOf (⟨10, 2⟩ : SceneDetector) qDiff 1 false
        ([0, 100] : List ℚ)).length :=
  monotonicity_in_configuration qDiff 1 false [0, 100] 10 20000 2 2
    (by decide) (by decide) (le_refl 2)

end Monotonicity

section Noninterference

variable {α : Type}

theorem runScan_callback_independent (D : SceneDetector) (score : α → α → ℚ)
    (fps : ℚ) (total_frames : ℕ) (cb1 cb2 : Bool) (frames : List α) :
    (runScan D score fps total_frames cb1 frames).scene_changes =
      (runScan D score fps total_frames cb2 frames).scene_changes ∧
    (runScan D score fps total_frames cb1 frames).prev_frame =
      (runScan D score fps total_frames cb2 frames).prev_frame ∧
    (runScan D score fps total_frames cb1 frames).frame_count =
      (runScan D score fps total_frames cb2 frames).frame_count := by
  have hstep : ∀ (s1 s2 : ScanState α) (a : α),
      (s1.scene_changes = s2.scene_changes ∧ s1.prev_frame = s2.prev_frame ∧
        s1.frame_count = s2.frame_count) →
      ((processFrame D score fps total_frames cb1 s1 a).scene_changes =
          (processFrame D score fps total_frames cb2 s2 a).scene_changes ∧
        (processFrame D score fps total_frames cb1 s1 a).prev_frame =
          (processFrame D score fps total_frames cb2 s2 a).prev_frame ∧
        (processFrame D score fps total_frames cb1 s1 a).frame_count =
          (processFrame D score fps total_frames cb2 s2 a).frame_count) := by
    intro s1 s2 a h
    obtain ⟨hsc, hprev, hcnt⟩ := h
    refine ⟨?_, by rw [processFrame_prev_frame, processFrame_prev_frame],
      by rw [processFrame_frame_count, processFrame_frame_count, hcnt]⟩
    cases hp : s1.prev_frame with
    | none =>
      have hp2 : s2.prev_frame = none := by rw [← hprev]; exact hp
      rw [processFrame_scene_changes_none D score fps total_frames cb1 a hp,
        processFrame_scene_changes_none D score fps total_frames cb2 a hp2]
      exact hsc
    | some p =>
      have hp2 : s2.prev_frame = some p := by rw [← hprev]; exact hp
      rw [processFrame_scene_changes_some D score fps total_frames cb1 a hp,
        processFrame_scene_changes_some D score fps total_frames cb2 a hp2,
        hsc, hcnt]
  exact foldl_rel hstep frames (initState α) (initState α) ⟨rfl, rfl, rfl⟩

/-- C5.  Determinism and progress noninterference: `detect_scenes` is a pure
function of the frame stream and the configuration (so two runs on the same
input are definitionally identical), and its interval output — the first
component of the result — does not depend on whether a progress callback is
supplied: the progress branch of the loop body only appends to the emitted
percentage list and touches neither `scene_changes`, `prev_frame` nor
`frame_count`, as the underlying simulation `runScan_callback_independent`
shows. -/
theorem detect_scenes_progress_noninterference (D : SceneDetector)
    (score : α → α → ℚ) (cap : VideoCapture α) (cb1 cb2 : Bool) :
    (detect_scenes D score cap cb1).map Prod.fst =
      (detect_scenes D score cap cb2).map Prod.fst := by
  rw [detect_scenes, detect_scenes]
  by_cases h1 : cap.opened = false
  · rw [if_pos h1, if_pos h1]
  · rw [if_neg h1, if_neg h1]
    by_cases h2 : cap.fps = 0
    · rw [if_pos h2, if_pos h2]
    · rw [if_neg h2, if_neg h2]
      obtain ⟨hsc, -, -⟩ := runScan_callback_independent D score cap.fps
        cap.frames.length cb1 cb2 cap.frames
      simp only [Except.map]
      rw [sceneChangesOf, sceneChangesOf, hsc]

end Noninterference

section Scorer

/-- A BGR pixel exactly as `cv2` stores frames (channel order B, G, R). -/
structure Pixel where
  b : ℕ
  g : ℕ
  r : ℕ
deriving DecidableEq

/-- A frame: a 2-D grid of pixels. -/
abbrev Frame := List (List Pixel)

/-- Embedding of `cv2.cvtColor(_, cv2.COLOR_BGR2GRAY)` per pixel: OpenCV's fixed-point
luminance `(R*4899 + G*9617 + B*1868 + 8192) >> 14`
(`0.299 R + 0.587 G + 0.114 B` with rounding). -/
def bgr2gray (p : Pixel) : ℕ :=
  (4899 * p.r + 9617 * p.g + 1868 * p.b + 8192) / 16384

/-- The grayscale image of a frame, as the flat multiset of its pixel
luminances (histograms do not depend on pixel positions). -/
def grayFrame (f : Frame) : List ℕ := f.flatten.map bgr2gray

/-- Embedding of `cv2.calcHist([gray], [0], None, [256], [0, 256])`: the 256-bucket
intensity histogram (float-valued in OpenCV, hence `ℚ`-valued here). -/
def calcHist (g : List ℕ) : Fin 256 → ℚ := fun v => (g.count (v : ℕ) : ℚ)

/-- Embedding of `cv2.compareHist(h1, h2, cv2.HISTCMP_CORREL)`: the Pearson-style
histogram correlation
`(s12 - s1*s2/N) / sqrt((s11 - s1²/N) * (s22 - s2²/N))` with `N = 256`
buckets; OpenCV returns `1` when the denominator vanishes.  The square root
forces the result into `ℝ`. -/
noncomputable def compareHistCorrel (H1 H2 : Fin 256 → ℚ) : ℝ :=
  if ((∑ v, H1 v * H1 v) - (∑ v, H1 v) * (∑ v, H1 v) / 256) *
      ((∑ v, H2 v * H2 v) - (∑ v, H2 v) * (∑ v, H2 v) / 256) = 0 then 1
  else (((∑ v, H1 v * H2 v) - (∑ v, H1 v) * (∑ v, H2 v) / 256 : ℚ) : ℝ) /
    Real.sqrt ((((∑ v, H1 v * H1 v) - (∑ v, H1 v) * (∑ v, H1 v) / 256) *
      ((∑ v, H2 v * H2 v) - (∑ v, H2 v) * (∑ v, H2 v) / 256) : ℚ) : ℝ)

/-- Embedding of `SceneDetector.calculate_frame_difference`: grayscale conversion,
256-bucket histograms, histogram correlation, and the final
`difference = (1 - correlation) * 100`.  In the embedding this is a Lean
function of the two frames' pixel contents, hence deterministic and free of
side effects. -/
noncomputable def calculate_frame_difference (frame1 frame2 : Frame) : ℝ :=
  (1 - compareHistCorrel (calcHist (grayFrame frame1))
    (calcHist (grayFrame frame2))) * 100

theorem compareHistCorrel_self (H : Fin 256 → ℚ) : compareHistCorrel H H = 1 := by
  unfold compareHistCorrel
  by_cases h : ((∑ v, H v * H v) - (∑ v, H v) * (∑ v, H v) / 256) *
      ((∑ v, H v * H v) - (∑ v, H v) * (∑ v, H v) / 256) = 0
  · rw [if_pos h]
  · rw [if_neg h]
    set S : ℚ := (∑ v, H v * H v) - (∑ v, H v) * (∑ v, H v) / 256 with hSdef
    have hSne : S ≠ 0 := by
      intro h0
      exact h (by rw [h0, mul_zero])
    have hcs : (∑ v : Fin 256, H v) ^ 2 ≤
        ((Finset.univ : Finset (Fin 256)).card : ℚ) * ∑ v : Fin 256, H v ^ 2 :=
      sq_sum_le_card_mul_sum_sq
    rw [Finset.card_univ, Fintype.card_fin] at hcs
    simp_rw [pow_two] at hcs
    have hSnonneg : 0 ≤ S := by
      rw [hSdef]
      push_cast at hcs
      linarith
    have hSpos : 0 < S := hSnonneg.lt_of_ne (Ne.symm hSne)
    have hsq : ((S * S : ℚ) : ℝ) = ((S : ℚ) : ℝ) ^ 2 := by
      push_cast
      ring
    rw [hsq, Real.sqrt_sq (by exact_mod_cast hSnonneg)]
    exact div_self (by exact_mod_cast hSne)

/-- C6.  Scorer definition: `calculate_frame_difference` grayscales both
frames, builds their 256-bucket intensity histograms, computes the
Pearson-style histogram correlation `c` and returns exactly
`(1 - c) * 100`; it is a pure Lean function of the two frames' pixel
contents (determinism), and whenever the two histograms coincide
(`c = 1`) the returned difference is `0`. -/
theorem scorer_definition (frame1 frame2 : Frame) :
    calculate_frame_difference frame1 frame2 =
      (1 - compareHistCorrel (calcHist (grayFrame frame1))
        (calcHist (grayFrame frame2))) * 100 ∧
    (calcHist (grayFrame frame1) = calcHist (grayFrame frame2) →
      calculate_frame_difference frame1 frame2 = 0) := by
  refine ⟨rfl, fun hh => ?_⟩
  rw [calculate_frame_difference, hh, compareHistCorrel_self]
  ring

/-- Witness for C6: two copies of a one-pixel black frame have equal
histograms and difference `0`. -/
theorem scorer_definition_witness :
    calcHist (grayFrame [[⟨0, 0, 0⟩]]) = calcHist (grayFrame [[⟨0, 0, 0⟩]]) ∧
    calculate_frame_difference [[⟨0, 0, 0⟩]] [[⟨0, 0, 0⟩]] = 0 :=
  ⟨rfl, (scorer_definition [[⟨0, 0, 0⟩]] [[⟨0, 0, 0⟩]]).2 rfl⟩

end Scorer

section DegenerateMetadata

/-- C7 (divergence of the code from the claim).  `detect_scenes` performs no
metadata validation: on an opened source reporting `fps = 0` it hits the
division `duration = total_frames / fps` and the numeric `ZeroDivisionError`
propagates (instead of the claimed `SourceUnavailable`/`InvalidConfiguration`
failure), and on a source reporting zero frames with `fps = 30` it raises
nothing at all, returning the degenerate interval list `[(0, 0)]`. -/
theorem degenerate_metadata_divergence :
    detect_scenes (⟨30, 2⟩ : SceneDetector) qDiff
        (⟨true, 0, [0, 100]⟩ : VideoCapture ℚ) false =
      .error .zeroDivisionError ∧
    detect_scenes (⟨30, 2⟩ : SceneDetector) qDiff
        (⟨true, 30, []⟩ : VideoCapture ℚ) false =
      .ok ([(0, 0)], []) := by
  constructor
  · rfl
  · rw [detect_scenes]
    norm_num [sceneChangesOf, runScan, initState, scenePairs]

end DegenerateMetadata

section ConfigValidation

/-- C8 (counterexample).  With the invalid configuration
`threshold = -1`, `min_scene_length = -1`, `detect_scenes` raises no
`InvalidConfiguration` error: it scans the frames normally and returns a
result (here accepting a boundary at `t = 1`), refuting the claim that a
non-positive threshold or negative minSceneLength is rejected before the
scan. -/
theorem config_validation_counterexample :
    detect_scenes (⟨-1, -1⟩ : SceneDetector) qDiff
        (⟨true, 1, [0, 100]⟩ : VideoCapture ℚ) false =
      .ok ([(0, 1), (1, 2)], []) := by
  rw [detect_scenes]
  norm_num [sceneChangesOf, runScan, initState, processFrame, qDiff, scenePairs,
    List.getLastD]

/-- C8 (amended).  Neither `__init__` nor `detect_scenes` validates the
configuration: for every configuration whatsoever — including non-positive
thresholds and negative minimum scene lengths — `detect_scenes` on an opened
source with nonzero fps proceeds with the scan and returns a normal result;
no `InvalidConfiguration` failure exists anywhere in the code. -/
theorem no_config_validation {α : Type} (D : SceneDetector)
    (score : α → α → ℚ) (cap : VideoCapture α) (hasCallback : Bool)
    (hopen : cap.opened = true) (hfps : cap.fps ≠ 0) :
    ∃ r, detect_scenes D score cap hasCallback = .ok r := by
  rw [detect_scenes, if_neg (by rw [hopen]; simp), if_neg hfps]
  exact ⟨_, rfl⟩

/-- Witness for the amended C8: the invalid configuration `⟨-1, -1⟩` is
accepted and produces a scan result. -/
theorem no_config_validation_witness :
    ∃ r, detect_scenes (⟨-1, -1⟩ : SceneDetector) qDiff
      (⟨true, 1, [0, 100]⟩ : VideoCapture ℚ) false = .ok r :=
  no_config_validation ⟨-1, -1⟩ qDiff ⟨true, 1, [0, 100]⟩ false rfl (by decide)

end ConfigValidation

section Splitting

/-- Filesystem side effects of `split_video_into_scenes`:
`os.makedirs(output_dir)` and each attempted `write_videofile` (by 0-based
scene index). -/
inductive SplitEvent where
  | makeDir
  | writeClip (idx : ℕ)
deriving DecidableEq

/-- One entry of the `scenes` section of the persisted JSON report. -/
structure SceneInfo where
  scene_number : ℕ
  start_time : ℚ
  end_time : ℚ
  duration : ℚ
deriving DecidableEq

/-- The persisted `scene_info` JSON report (the `source_video` path and the
wall-clock `timestamp` field carry no verifiable content and are omitted). -/
structure SceneReport where
  total_scenes : ℕ
  created_clips : ℕ
  detection_threshold : ℚ
  min_scene_length : ℚ
  scenes : List SceneInfo
deriving DecidableEq

/-- The `for i, (start_time, end_time) in enumerate(scene_timestamps)` loop:
intervals shorter than `0.5` are skipped outright; otherwise a clip write is
attempted (event `writeClip i`), and the clip is recorded in
`created_clips` only when the writer succeeds (`writeOk i`; a `False` models
the caught per-clip exception, after which the loop continues). -/
def splitLoop (writeOk : ℕ → Bool) :
    List (ℕ × ℚ × ℚ) → List SplitEvent × List (ℕ × ℚ × ℚ)
  | [] => ([], [])
  | (i, s, e) :: rest =>
    if e - s < 1 / 2 then splitLoop writeOk rest
    else if writeOk i then
      (SplitEvent.writeClip i :: (splitLoop writeOk rest).1,
        (i, s, e) :: (splitLoop writeOk rest).2)
    else
      (SplitEvent.writeClip i :: (splitLoop writeOk rest).1,
        (splitLoop writeOk rest).2)

/-- Embedding of `SceneDetector.split_video_into_scenes`: fall back to the detector's
stored `scene_timestamps` when the argument is `None`, raise when the
resulting list is empty, otherwise create the output directory, run the
splitting loop, and build the report whose `scenes` section enumerates every
interval while `created_clips` counts only the clips actually written.
Returns the emitted filesystem events alongside the Python result. -/
def split_video_into_scenes (D : SceneDetector) (stored : List (ℚ × ℚ))
    (scene_timestamps : Option (List (ℚ × ℚ))) (writeOk : ℕ → Bool) :
    List SplitEvent × Except String (List (ℕ × ℚ × ℚ) × SceneReport) :=
  let ts :=
    match scene_timestamps with
    | none => stored
    | some l => l
  if ts = [] then
    ([], .error "No scene timestamps available. Run detect_scenes() first.")
  else
    (SplitEvent.makeDir :: (splitLoop writeOk ts.enum).1,
      .ok ((splitLoop writeOk ts.enum).2,
        { total_scenes := ts.length
          created_clips := (splitLoop writeOk ts.enum).2.length
          detection_threshold := D.threshold
          min_scene_length := D.min_scene_length
          scenes := ts.enum.map fun p =>
            ⟨p.1 + 1, p.2.1, p.2.2, p.2.2 - p.2.1⟩ }))

theorem splitLoop_mem {writeOk : ℕ → Bool} :
    ∀ {l : List (ℕ × ℚ × ℚ)} {c : ℕ × ℚ × ℚ}, c ∈ (splitLoop writeOk l).2 →
      c ∈ l ∧ ¬(c.2.2 - c.2.1 < 1 / 2)
  | [], c, h => by simp [splitLoop] at h
  | (i, s, e) :: rest, c, h => by
    rw [splitLoop] at h
    split_ifs at h with h1 h2
    · obtain ⟨hm, hd⟩ := splitLoop_mem h
      exact ⟨List.mem_cons_of_mem _ hm, hd⟩
    · rcases List.mem_cons.mp h with rfl | h3
      · exact ⟨List.mem_cons_self _ _, h1⟩
      · obtain ⟨hm, hd⟩ := splitLoop_mem h3
        exact ⟨List.mem_cons_of_mem _ hm, hd⟩
    · obtain ⟨hm, hd⟩ := splitLoop_mem h
      exact ⟨List.mem_cons_of_mem _ hm, hd⟩

/-- C9.  Clip floor and report divergence: on a nonempty interval list,
`split_video_into_scenes` succeeds, every interval of duration `< 0.5` is
absent from the returned created-clip list, yet the report's `scenes`
section enumerates every interval (including skipped ones), its
`total_scenes` counts all intervals, and its `created_clips` counts only the
clips actually written. -/
theorem clip_floor_and_report (D : SceneDetector) (stored : List (ℚ × ℚ))
    (writeOk : ℕ → Bool) (ts : List (ℚ × ℚ)) (hne : ts ≠ []) :
    ∃ events created report,
      split_video_into_scenes D stored (some ts) writeOk =
        (events, .ok (created, report)) ∧
      (∀ i s e, (i, (s, e)) ∈ ts.enum → e - s < 1 / 2 → (i, s, e) ∉ created) ∧
      report.scenes = ts.enum.map
        (fun p => ⟨p.1 + 1, p.2.1, p.2.2, p.2.2 - p.2.1⟩) ∧
      (∀ s e, (s, e) ∈ ts → ∃ info ∈ report.scenes,
        info.start_time = s ∧ info.end_time = e) ∧
      report.total_scenes = ts.length ∧
      report.created_clips = created.length := by
  have hsplit : split_video_into_scenes D stored (some ts) writeOk =
      (SplitEvent.makeDir :: (splitLoop writeOk ts.enum).1,
        .ok ((splitLoop writeOk ts.enum).2,
          { total_scenes := ts.length
            created_clips := (splitLoop writeOk ts.enum).2.length
            detection_threshold := D.threshold
            min_scene_length := D.min_scene_length
            scenes := ts.enum.map fun p =>
              ⟨p.1 + 1, p.2.1, p.2.2, p.2.2 - p.2.1⟩ })) := by
    rw [split_video_into_scenes]
    rw [if_neg hne]
  refine ⟨_, _, _, hsplit, ?_, rfl, ?_, rfl, rfl⟩
  · intro i s e _ hshort hc
    exact (splitLoop_mem hc).2 hshort
  · intro s e hm
    obtain ⟨i, hi, hget⟩ := List.getElem_of_mem hm
    have henum : (i, (s, e)) ∈ ts.enum := by
      rw [List.mk_mem_enum_iff_getElem?, List.getElem?_eq_getElem hi, hget]
    exact ⟨⟨i + 1, s, e, e - s⟩, List.mem_map.mpr ⟨(i, (s, e)), henum, rfl⟩,
      rfl, rfl⟩

/-- Witness for C9: intervals `[(0, 3/10), (3/10, 2)]` — the first lasting
`0.3 < 0.5` seconds — with an always-succeeding writer. -/
theorem clip_floor_and_report_witness :
    ∃ events created report,
      split_video_into_scenes (⟨30, 2⟩ : SceneDetector) []
          (some [(0, 3 / 10), (3 / 10, 2)]) (fun _ => true) =
        (events, .ok (created, report)) ∧
      (∀ i s e, (i, (s, e)) ∈ ([(0, 3 / 10), (3 / 10, 2)] : List (ℚ × ℚ)).enum →
        e - s < 1 / 2 → (i, s, e) ∉ created) ∧
      report.scenes = ([(0, 3 / 10), (3 / 10, 2)] : List (ℚ × ℚ)).enum.map
        (fun p => ⟨p.1 + 1, p.2.1, p.2.2, p.2.2 - p.2.1⟩) ∧
      (∀ s e, (s, e) ∈ ([(0, 3 / 10), (3 / 10, 2)] : List (ℚ × ℚ)) →
        ∃ info ∈ report.scenes, info.start_time = s ∧ info.end_time = e) ∧
      report.total_scenes = ([(0, 3 / 10), (3 / 10, 2)] : List (ℚ × ℚ)).length ∧
      report.created_clips = created.length :=
  clip_floor_and_report ⟨30, 2⟩ [] (fun _ => true) [(0, 3 / 10), (3 / 10, 2)]
    (by simp)

/-- C10.  Missing-timestamps fail-fast: when `split_video_into_scenes` is
called with `scene_timestamps = None` (falling back to the detector's empty
stored list) or with an explicitly empty list, it raises the
"No scene timestamps available" error before creating any output directory
or clip — the emitted filesystem-event trace is empty. -/
theorem empty_timestamps_error (D : SceneDetector) (writeOk : ℕ → Bool)
    (arg : Option (List (ℚ × ℚ))) (h : arg = none ∨ arg = some []) :
    split_video_into_scenes D [] arg writeOk =
      ([], .error "No scene timestamps available. Run detect_scenes() first.") := by
  rcases h with rfl | rfl <;> rfl

/-- Witness for C10: the `None` argument with an empty stored list. -/
theorem empty_timestamps_error_witness :
    split_video_into_scenes (⟨30, 2⟩ : SceneDetector) [] none (fun _ => true) =
      ([], .error "No scene timestamps available. Run detect_scenes() first.") :=
  empty_timestamps_error ⟨30, 2⟩ (fun _ => true) none (Or.inl rfl)

end Splitting

end SceneDetection
